import Mathlib

/-!
Shallow embedding of the sharded storage packer in
helper/storagepacker/storagepacker_v2.go, together with proofs about it.

Modelling conventions, stated once here:
  - Go maps and the radix tree are modelled as association lists whose insert
    overwrites the existing binding for a key.
  - The radix tree from the external go-radix library is modelled through the
    semantic contract of its LongestPrefix / Insert / Delete operations.
  - The storage backend (logical.StorageView) is modelled as an association
    list of entries plus a put behaviour that either succeeds, fails with the
    value-too-large error, or fails with a transient storage error; reads are
    modelled as total lookups.
  - Serialized bucket bytes (protobuf marshalling plus snappy compression,
    both outside src) are modelled symbolically by the bucket they encode,
    with a separate constructor for the legacy uncompressed form.
  - Locks and contexts collapse in the sequential model; Go pointer aliasing
    between the cache and a mutated bucket is rendered by re-inserting the
    mutated bucket at the cache slot it was resolved from.
-/

/-- Association list lookup, first binding wins, mirroring Go map reads. -/
def lookupAssoc {α : Type} : List (String × α) → String → Option α
  | [], _ => none
  | kv :: rest, k => if kv.1 = k then some kv.2 else lookupAssoc rest k

/-- Remove every binding for the given key. -/
def eraseKey {α : Type} (l : List (String × α)) (k : String) : List (String × α) :=
  l.filter (fun kv => kv.1 ≠ k)

/-- Insert or overwrite the binding for the given key. -/
def insertAssoc {α : Type} (l : List (String × α)) (k : String) (v : α) : List (String × α) :=
  (k, v) :: eraseKey l k

/-- Byte-slicing a hex string from the front, as in Go slicing of an ASCII string. -/
def strTake (s : String) (n : Nat) : String :=
  String.mk (s.data.take n)

/-- Whether the first string is a prefix of the second, the contract of radix keys. -/
def strIsPrefixOfStr (a b : String) : Bool :=
  decide (a.data <+: b.data)

/-- Model of strings.Replace with the separator removed, the GetCacheKey method. -/
def GetCacheKey (key : String) : String :=
  String.mk (key.data.filter (fun c => c ≠ '/'))

/-- Lowercase hex digit predicate. -/
def isHexDigit (c : Char) : Bool :=
  (('0' ≤ c) && (c ≤ '9')) || (('a' ≤ c) && (c ≤ 'f'))

/-- Fixed-width big-endian hex rendering of a natural number, lowest limb last. -/
def hexOfNat : Nat → Nat → List Char
  | 0, _ => []
  | w + 1, n => hexOfNat w (n / 16) ++ [Nat.digitChar (n % 16)]

/-- Modelled from the spec: the mixing core of cryptoutil.Blake2b256Hash, which is
not under src.  The spec requires only a fixed 256-bit digest that is a pure
function of the id; this executable stand-in folds the id into a 256-bit
accumulator. -/
def specHash256 (id : String) : Nat :=
  id.data.foldl (fun h c => (h * 16777619 + c.toNat + 1) % (2 ^ 256)) 1469598103934665603

/-- Modelled from the spec: hex.EncodeToString of the 256-bit digest, a
64-character lowercase hex string. -/
def blake2b256Hex (id : String) : String :=
  String.mk (hexOfNat 64 (specHash256 id))

/-- Opaque item payload; the packer never inspects it. -/
abbrev Payload := String

/-- An item as passed to the packer. -/
structure Item where
  id : String
  message : Payload
deriving DecidableEq, Repr

/-- The Bucket record: key, item map, and child shard buckets. -/
structure Bucket where
  key : String
  itemMap : List (String × Payload)
  buckets : List (String × Bucket)

/-- Errors produced by the packer and the backend.  The Go code detects the
value-too-large case by substring matching on the error text; wrapping with
errwrap preserves the substring, which the wrapped constructor mirrors. -/
inductive PackerErr where
  | valueTooLarge
  | ioError
  | corrupt
  | invalidArg
  | wrapped (e : PackerErr)
deriving DecidableEq, Repr

/-- Whether the error text contains physical.ErrValueTooLarge, surviving wraps. -/
def PackerErr.containsValueTooLarge : PackerErr → Bool
  | .valueTooLarge => true
  | .wrapped e => e.containsValueTooLarge
  | _ => false

/-- Uniform behaviour of backend put calls in a run. -/
inductive PutBehavior where
  | honest
  | failTooLarge
  | failIoErr
deriving DecidableEq, Repr

/-- Serialized storage values, symbolically: a snappy-compressed protobuf
bucket, a legacy uncompressed protobuf bucket, or undecodable bytes. -/
inductive StorageValue where
  | snappy (b : Bucket)
  | plain (b : Bucket)
  | garbage

/-- A storage entry as handed to DecodeBucket. -/
structure StorageEntry where
  key : String
  value : StorageValue

/-- The backend key-value store visible to the packer. -/
structure Backend where
  store : List (String × StorageValue)
  behavior : PutBehavior

/-- One backend put: success updates the store, failures leave it unchanged. -/
def backendPut (bk : Backend) (k : String) (v : StorageValue) : Except PackerErr Backend :=
  match bk.behavior with
  | .honest => .ok { bk with store := insertAssoc bk.store k v }
  | .failTooLarge => .error .valueTooLarge
  | .failIoErr => .error .ioError

/-- The state of a StoragePackerV2 instance plus its backend. -/
structure PackerState where
  baseBucketBits : Nat
  bucketShardBits : Nat
  bucketsCache : List (String × Bucket)
  queueMode : Bool
  queuedBuckets : List (String × Bucket)
  backend : Backend

/-- Longest-prefix lookup over the cached buckets, the contract of the go-radix
LongestPrefix operation. -/
def longestPrefixOf : List (String × Bucket) → String → Option (String × Bucket)
  | [], _ => none
  | kv :: rest, q =>
    let best := longestPrefixOf rest q
    if strIsPrefixOfStr kv.1 q then
      match best with
      | none => some kv
      | some b => if b.1.data.length < kv.1.data.length then some kv else some b
    else best

/-- Embeds BucketStorageKeyForItemID: hash the id, try a longest-prefix hit in
the cache, otherwise fall back to the base-bits prefix of the digest.  The
double-checked second lookup of the source collapses to a repeated lookup in
the sequential model.  The function reads no storage and creates no bucket. -/
def BucketStorageKeyForItemID (s : PackerState) (itemID : String) : String :=
  let hexVal := blake2b256Hex itemID
  match longestPrefixOf s.bucketsCache hexVal with
  | some kb => kb.2.key
  | none =>
    let cacheKey := strTake hexVal (s.baseBucketBits / 4)
    match longestPrefixOf s.bucketsCache hexVal with
    | some kb => kb.2.key
    | none => cacheKey

/-- Embeds DecodeBucket: decompress if compressed, unmarshal, then override the
decoded key with the storage key the entry was read from. -/
def DecodeBucket (entry : StorageEntry) : Except PackerErr Bucket :=
  match entry.value with
  | .snappy b => .ok { b with key := entry.key }
  | .plain b => .ok { b with key := entry.key }
  | .garbage => .error (.wrapped .corrupt)

/-- Embeds storeBucket: in queue mode, record the bucket in the pending map and
report success without touching the backend; otherwise marshal, compress and
put, wrapping a put failure. -/
def storeBucket (s : PackerState) (bucket : Bucket) : Option PackerErr × PackerState :=
  if s.queueMode then
    (none, { s with queuedBuckets := insertAssoc s.queuedBuckets bucket.key bucket })
  else
    match backendPut s.backend bucket.key (.snappy bucket) with
    | .ok bk => (none, { s with backend := bk })
    | .error e => (some (.wrapped e), s)

/-- Embeds GetItem: route, resolve the bucket from cache or storage (caching a
decoded bucket), then read the item map under the bucket reader lock. -/
def GetItem (s : PackerState) (itemID : String) :
    Except PackerErr (Option Item) × PackerState :=
  if itemID = "" then (.error .invalidArg, s)
  else
    let bucketKey := BucketStorageKeyForItemID s itemID
    let cacheKey := GetCacheKey bucketKey
    match longestPrefixOf s.bucketsCache cacheKey with
    | some kb =>
      if kb.2.itemMap.isEmpty then (.ok none, s)
      else
        match lookupAssoc kb.2.itemMap itemID with
        | none => (.ok none, s)
        | some msg => (.ok (some { id := itemID, message := msg }), s)
    | none =>
      match lookupAssoc s.backend.store bucketKey with
      | none => (.ok none, s)
      | some v =>
        match DecodeBucket { key := bucketKey, value := v } with
        | .error e => (.error (.wrapped e), s)
        | .ok bucket =>
          let s1 := { s with bucketsCache := insertAssoc s.bucketsCache cacheKey bucket }
          if bucket.itemMap.isEmpty then (.ok none, s1)
          else
            match lookupAssoc bucket.itemMap itemID with
            | none => (.ok none, s1)
            | some msg => (.ok (some { id := itemID, message := msg }), s1)

/-- Tail of PutItem after the bucket is resolved: upsert the item, then store.
The source inserts the bucket pointer into the cache before the upsert mutates
it in place, so the cache slot holds the upserted bucket whether or not the
following store succeeds; the re-insert here renders that aliasing. -/
def putItemFinish (s : PackerState) (slot : String) (bucket : Bucket) (item : Item) :
    Option PackerErr × PackerState :=
  if item.id = "" then (some (.wrapped .invalidArg), s)
  else
    let b1 := { bucket with itemMap := insertAssoc bucket.itemMap item.id item.message }
    let s1 := { s with bucketsCache := insertAssoc s.bucketsCache slot b1 }
    storeBucket s1 b1

/-- Embeds PutItem: route, resolve the bucket from cache or storage or create a
fresh one keyed by the routed bucket key, upsert, persist. -/
def PutItem (s : PackerState) (item : Item) : Option PackerErr × PackerState :=
  if item.id = "" then (some .invalidArg, s)
  else
    let bucketKey := BucketStorageKeyForItemID s item.id
    let cacheKey := GetCacheKey bucketKey
    match longestPrefixOf s.bucketsCache cacheKey with
    | some kb => putItemFinish s kb.1 kb.2 item
    | none =>
      match lookupAssoc s.backend.store bucketKey with
      | none => putItemFinish s cacheKey { key := bucketKey, itemMap := [], buckets := [] } item
      | some v =>
        match DecodeBucket { key := bucketKey, value := v } with
        | .error e => (some (.wrapped e), s)
        | .ok bucket => putItemFinish s cacheKey bucket item

/-- Tail of DeleteItem after the bucket is resolved: return success without a
write when the bucket has no items or lacks the id, otherwise remove and
store.  The removal is visible through the cache slot, as for PutItem. -/
def deleteItemFinish (s : PackerState) (slot : String) (bucket : Bucket) (itemID : String) :
    Option PackerErr × PackerState :=
  if bucket.itemMap.isEmpty then (none, s)
  else
    match lookupAssoc bucket.itemMap itemID with
    | none => (none, s)
    | some _ =>
      let b1 := { bucket with itemMap := eraseKey bucket.itemMap itemID }
      let s1 := { s with bucketsCache := insertAssoc s.bucketsCache slot b1 }
      storeBucket s1 b1

/-- Embeds DeleteItem: route, resolve the bucket from cache or storage (caching
a decoded bucket), then remove the id if present and persist. -/
def DeleteItem (s : PackerState) (itemID : String) : Option PackerErr × PackerState :=
  if itemID = "" then (some .invalidArg, s)
  else
    let bucketKey := BucketStorageKeyForItemID s itemID
    let cacheKey := GetCacheKey bucketKey
    match longestPrefixOf s.bucketsCache cacheKey with
    | some kb => deleteItemFinish s kb.1 kb.2 itemID
    | none =>
      match lookupAssoc s.backend.store bucketKey with
      | none => (none, s)
      | some v =>
        match DecodeBucket { key := bucketKey, value := v } with
        | .error e => (some (.wrapped e), s)
        | .ok bucket =>
          deleteItemFinish
            { s with bucketsCache := insertAssoc s.bucketsCache cacheKey bucket }
            cacheKey bucket itemID

/-- Reproduction of the Go expression fmt.Sprintf with the x verb on a
natural number: lowercase hex without padding. -/
def sprintfHex (i : Nat) : String :=
  String.mk (Nat.toDigits 16 i)

/-- Embeds the loop of shardBucket as written in the source.  The Go source
computes the loop bound with the caret operator, which is bitwise xor, not
exponentiation, and it adds freshly allocated empty buckets under unpadded hex
labels without routing any parent item into them.  The remaining lines of the
routine reference a variable that is not in scope and the routine is missing a
return, so only this loop has a modellable effect. -/
def shardBucketChildren (shardBits : Nat) (bucket : Bucket) : Bucket :=
  (List.range (2 ^^^ shardBits)).foldl
    (fun b i =>
      { b with buckets := insertAssoc b.buckets (sprintfHex i) { key := "", itemMap := [], buckets := [] } })
    bucket

/-- Embeds shardBucket at the call site granularity: it mutates the bucket by
the child-allocating loop and, having no return statement in the source, is
modelled as reporting no error and leaving the rest of the state unchanged. -/
def shardBucket (s : PackerState) (bucket : Bucket) : Option PackerErr × Bucket × PackerState :=
  (none, shardBucketChildren s.bucketShardBits bucket, s)

/-- Embeds PutBucket: store the bucket; when the store error text contains the
value-too-large marker, call shardBucket instead of returning the error; on
success insert the bucket into the cache. -/
def PutBucket (s : PackerState) (bucket : Bucket) : Option PackerErr × PackerState :=
  if bucket.key = "" then (some .invalidArg, s)
  else
    match storeBucket s bucket with
    | (none, s1) =>
      (none, { s1 with bucketsCache := insertAssoc s1.bucketsCache (GetCacheKey bucket.key) bucket })
    | (some e, s1) =>
      if e.containsValueTooLarge then
        match shardBucket s1 bucket with
        | (some e2, _, s2) => (some e2, s2)
        | (none, b2, s2) =>
          (none, { s2 with bucketsCache := insertAssoc s2.bucketsCache (GetCacheKey b2.key) b2 })
      else (some e, s1)

/-- The loop body of FlushQueue over a snapshot of the queued entries: store
each bucket, collect any error, and delete the map entry unconditionally. -/
def flushLoop : PackerState → List (String × Bucket) → List PackerErr → List PackerErr × PackerState
  | s, [], errs => (errs, s)
  | s, (k, b) :: rest, errs =>
    let step := storeBucket s b
    let s1 := { step.2 with queuedBuckets := eraseKey step.2.queuedBuckets k }
    flushLoop s1 rest (match step.1 with | none => errs | some e => errs ++ [e])

/-- Embeds FlushQueue: range over the queued buckets, persisting each and
deleting it from the queue whether or not the store succeeded, aggregating
errors multierror-style with ErrorOrNil at the end. -/
def FlushQueue (s : PackerState) : Option (List PackerErr) × PackerState :=
  let run := flushLoop s s.queuedBuckets []
  (if run.1.isEmpty then none else some run.1, run.2)

/-- Embeds SetQueueMode. -/
def SetQueueMode (s : PackerState) (enabled : Bool) : PackerState :=
  { s with queueMode := enabled }

/-- Default base bucket bits from the source constants. -/
def defaultBaseBucketBits : Nat := 8

/-- Default bucket shard bits from the source constants. -/
def defaultBucketShardBits : Nat := 4

/-- Embeds NewStoragePackerV2 on an explicit config store (an association list
from keys to the persisted base bucket bits, the only field with a JSON tag).
The needPersist flag is declared false and the source never sets it to true:
it is only assigned false again when a stored config is found. -/
def NewStoragePackerV2 (behavior : PutBehavior)
    (configStore : List (String × Nat)) (bucketStore : List (String × StorageValue))
    (baseBucketBits bucketShardBits : Nat) :
    Except PackerErr (PackerState × List (String × Nat)) :=
  let base0 := if baseBucketBits = 0 then defaultBaseBucketBits else baseBucketBits
  let needPersist0 := false
  let afterLoad :=
    match lookupAssoc configStore ("config") with
    | some existBase => (existBase, false)
    | none => (base0, needPersist0)
  let base1 := afterLoad.1
  let needPersist := afterLoad.2
  let shard := if bucketShardBits = 0 then defaultBucketShardBits else bucketShardBits
  if base1 % 4 ≠ 0 then .error .invalidArg
  else if shard % 4 ≠ 0 then .error .invalidArg
  else if base1 < 4 then .error .invalidArg
  else if shard < 4 then .error .invalidArg
  else
    let configStore1 := if needPersist then insertAssoc configStore ("config") base1 else configStore
    .ok
      ({ baseBucketBits := base1, bucketShardBits := shard, bucketsCache := [],
         queueMode := false, queuedBuckets := [],
         backend := { store := bucketStore, behavior := behavior } },
       configStore1)

/-- The payload the in-memory index currently resolves for an id at the
base-bits slot; the auxiliary observation used throughout the proofs. -/
def resolvedPayload (s : PackerState) (id : String) : Option Payload :=
  match lookupAssoc s.bucketsCache (strTake (blake2b256Hex id) (s.baseBucketBits / 4)) with
  | none => none
  | some b => lookupAssoc b.itemMap id

/-- Well-formedness of a packer state reachable through the public operations:
base bits are valid and small enough for the digest, every cached bucket sits
at its own slash-free hex cache key of the base length, cache keys are
distinct, and every stored bucket key is also cached.  A fresh packer state
satisfies this trivially. -/
def CacheWF (s : PackerState) : Prop :=
  4 ≤ s.baseBucketBits ∧ s.baseBucketBits / 4 ≤ 64 ∧
  (∀ kb ∈ s.bucketsCache,
    (kb.1 : String).data.length = s.baseBucketBits / 4 ∧
    kb.2.key = kb.1 ∧
    (∀ c ∈ (kb.1 : String).data, isHexDigit c = true)) ∧
  (s.bucketsCache.map Prod.fst).Nodup ∧
  (∀ kv ∈ s.backend.store, kv.1 ∈ s.bucketsCache.map Prod.fst)

/-- A run in which the backend accepts every put and queue mode is off. -/
def Honest (s : PackerState) : Prop :=
  s.backend.behavior = .honest ∧ s.queueMode = false

/-- One packer operation of a sequential history. -/
inductive PackerOp where
  | put (id : String) (msg : Payload)
  | del (id : String)

/-- The item id an operation addresses. -/
def opId : PackerOp → String
  | .put id _ => id
  | .del id => id

/-- Apply one operation, keeping only the state. -/
def applyOp (s : PackerState) (op : PackerOp) : PackerState :=
  match op with
  | .put id msg => (PutItem s { id := id, message := msg }).2
  | .del id => (DeleteItem s id).2

/-- Run a history left to right. -/
def runOps (s : PackerState) (ops : List PackerOp) : PackerState :=
  ops.foldl applyOp s

/-- The net effect of a history on one id: none when no operation addresses
the id, some none when the last such operation deletes it, and some (some p)
when the last such operation writes payload p. -/
def lastOp : List PackerOp → String → Option (Option Payload)
  | [], _ => none
  | op :: rest, id =>
    match lastOp rest id with
    | some r => some r
    | none =>
      match op with
      | .put i m => if i = id then some (some m) else none
      | .del i => if i = id then some none else none

/-- A fresh packer over an empty backend with the default parameters. -/
def packerEmpty (behavior : PutBehavior) : PackerState :=
  { baseBucketBits := 8, bucketShardBits := 4, bucketsCache := [],
    queueMode := false, queuedBuckets := [],
    backend := { store := [], behavior := behavior } }

/-- The base-level cache key of the item id alice. -/
def aliceKey : String := strTake (blake2b256Hex ("alice")) 2

/-- A bucket at the alice slot holding one item. -/
def aliceBucket : Bucket := { key := aliceKey, itemMap := [("alice", "one")], buckets := [] }

/-- A packer whose cache already holds the alice bucket. -/
def packerWithAlice (behavior : PutBehavior) : PackerState :=
  { packerEmpty behavior with bucketsCache := [(aliceKey, aliceBucket)] }

/-- A one-item bucket at the fixed key 00. -/
def bucket00 : Bucket := { key := "00", itemMap := [("alice", "one")], buckets := [] }

/-- A packer in queue mode with one queued bucket over an empty backend. -/
def packerQueuedOne : PackerState :=
  { packerEmpty .honest with queueMode := true, queuedBuckets := [("00", bucket00)] }

/-- A packer with queue mode already off again and one bucket left to flush. -/
def packerFlushReady : PackerState :=
  { packerEmpty .honest with queuedBuckets := [("00", bucket00)] }

/-- A packer with one queued bucket whose backend rejects every put. -/
def packerFailQueue : PackerState :=
  { packerEmpty .failIoErr with queuedBuckets := [("00", bucket00)] }

theorem eraseKey_cons_pos {α : Type} (kv : String × α) (rest : List (String × α)) (k : String)
    (h : kv.1 = k) : eraseKey (kv :: rest) k = eraseKey rest k := by
  simp [eraseKey, h]

theorem eraseKey_cons_neg {α : Type} (kv : String × α) (rest : List (String × α)) (k : String)
    (h : ¬ (kv.1 = k)) : eraseKey (kv :: rest) k = kv :: eraseKey rest k := by
  simp [eraseKey, h]

theorem lookupAssoc_eraseKey_ne {α : Type} (l : List (String × α)) (k k' : String) (h : k' ≠ k) :
    lookupAssoc (eraseKey l k) k' = lookupAssoc l k' := by
  induction l with
  | nil => rfl
  | cons kv rest ih =>
    by_cases hk : kv.1 = k
    · have hne : ¬ (kv.1 = k') := by rw [hk]; exact fun e => h e.symm
      rw [eraseKey_cons_pos kv rest k hk, ih, lookupAssoc, if_neg hne]
    · rw [eraseKey_cons_neg kv rest k hk]
      show (if kv.1 = k' then some kv.2 else lookupAssoc (eraseKey rest k) k') = _
      rw [ih, lookupAssoc]

theorem lookupAssoc_eraseKey_self {α : Type} (l : List (String × α)) (k : String) :
    lookupAssoc (eraseKey l k) k = none := by
  induction l with
  | nil => rfl
  | cons kv rest ih =>
    by_cases hk : kv.1 = k
    · rw [eraseKey_cons_pos kv rest k hk]; exact ih
    · rw [eraseKey_cons_neg kv rest k hk]
      show (if kv.1 = k then some kv.2 else lookupAssoc (eraseKey rest k) k) = none
      rw [if_neg hk]; exact ih

theorem lookupAssoc_insert_self {α : Type} (l : List (String × α)) (k : String) (v : α) :
    lookupAssoc (insertAssoc l k v) k = some v := by
  simp [insertAssoc, lookupAssoc]

theorem lookupAssoc_insert_ne {α : Type} (l : List (String × α)) (k k' : String) (v : α)
    (h : k' ≠ k) : lookupAssoc (insertAssoc l k v) k' = lookupAssoc l k' := by
  show (if k = k' then some v else lookupAssoc (eraseKey l k) k') = _
  rw [if_neg (fun e => h e.symm)]
  exact lookupAssoc_eraseKey_ne l k k' h

theorem lookupAssoc_eq_none_of_not_mem {α : Type} (l : List (String × α)) (k : String)
    (h : k ∉ l.map Prod.fst) : lookupAssoc l k = none := by
  induction l with
  | nil => rfl
  | cons kv rest ih =>
    simp only [List.map_cons, List.mem_cons, not_or] at h
    have hne : ¬ (kv.1 = k) := fun e => h.1 e.symm
    show (if kv.1 = k then some kv.2 else lookupAssoc rest k) = none
    rw [if_neg hne]
    exact ih h.2

theorem lookupAssoc_mem {α : Type} : ∀ (l : List (String × α)) (k : String) (v : α),
    lookupAssoc l k = some v → (k, v) ∈ l := by
  intro l
  induction l with
  | nil => intro k v h; exact absurd h (by simp [lookupAssoc])
  | cons kv rest ih =>
    intro k v h
    by_cases hk : kv.1 = k
    · rw [lookupAssoc, if_pos hk] at h
      injection h with h2
      have : (k, v) = kv := by
        obtain ⟨k1, v1⟩ := kv
        simp only at hk h2
        rw [hk, h2]
      rw [this]
      exact List.mem_cons_self kv rest
    · rw [lookupAssoc, if_neg hk] at h
      exact List.mem_cons_of_mem kv (ih k v h)

theorem keys_eraseKey {α : Type} (l : List (String × α)) (k : String) :
    (eraseKey l k).map Prod.fst = (l.map Prod.fst).filter (fun x => x ≠ k) := by
  induction l with
  | nil => rfl
  | cons kv rest ih =>
    by_cases hk : kv.1 = k
    · rw [eraseKey_cons_pos kv rest k hk, ih]
      simp [List.filter, hk]
    · rw [eraseKey_cons_neg kv rest k hk]
      simp only [List.map_cons, ih]
      simp [List.filter, hk]

theorem nodup_keys_insertAssoc {α : Type} (l : List (String × α)) (k : String) (v : α)
    (h : (l.map Prod.fst).Nodup) : ((insertAssoc l k v).map Prod.fst).Nodup := by
  simp only [insertAssoc, List.map_cons, keys_eraseKey, List.nodup_cons]
  refine ⟨?_, List.Nodup.filter _ h⟩
  intro hmem
  have h2 := List.of_mem_filter hmem
  simp at h2

theorem mem_insertAssoc {α : Type} (l : List (String × α)) (k : String) (v : α)
    (kb : String × α) (h : kb ∈ insertAssoc l k v) : kb = (k, v) ∨ kb ∈ l := by
  rcases List.mem_cons.mp h with h1 | h1
  · left; exact h1
  · right; exact List.mem_of_mem_filter h1

theorem strEq_of_data {a b : String} (h : a.data = b.data) : a = b := by
  cases a; cases b; exact congrArg String.mk h

theorem hexOfNat_length (w : Nat) : ∀ n, (hexOfNat w n).length = w := by
  induction w with
  | zero => intro n; rfl
  | succ w ih =>
    intro n
    simp [hexOfNat, ih]

theorem digitChar_isHexDigit : ∀ m, m < 16 → isHexDigit (Nat.digitChar m) = true := by decide

theorem hexOfNat_isHexDigit (w : Nat) : ∀ n, ∀ c ∈ hexOfNat w n, isHexDigit c = true := by
  induction w with
  | zero => intro n c hc; exact absurd hc (by simp [hexOfNat])
  | succ w ih =>
    intro n c hc
    rw [hexOfNat] at hc
    rcases List.mem_append.mp hc with h1 | h1
    · exact ih _ c h1
    · rw [List.mem_singleton.mp h1]
      exact digitChar_isHexDigit _ (Nat.mod_lt n (by omega))

theorem blake2b256Hex_length (id : String) : (blake2b256Hex id).data.length = 64 :=
  hexOfNat_length 64 (specHash256 id)

theorem blake2b256Hex_isHexDigit (id : String) :
    ∀ c ∈ (blake2b256Hex id).data, isHexDigit c = true :=
  hexOfNat_isHexDigit 64 (specHash256 id)

theorem isHexDigit_ne_slash {c : Char} (h : isHexDigit c = true) : c ≠ '/' := by
  intro he
  rw [he] at h
  exact absurd h (by decide)

theorem GetCacheKey_eq_self {key : String} (h : ∀ c ∈ key.data, c ≠ '/') :
    GetCacheKey key = key := by
  apply strEq_of_data
  show key.data.filter (fun c => c ≠ '/') = key.data
  rw [List.filter_eq_self]
  intro c hc
  simpa using h c hc

theorem strTake_data (s : String) (n : Nat) : (strTake s n).data = s.data.take n := rfl

theorem strTake_length (s : String) (n : Nat) (h : n ≤ s.data.length) :
    (strTake s n).data.length = n := by
  rw [strTake_data, List.length_take]
  omega

theorem strTake_all (s : String) : strTake s s.data.length = s := by
  apply strEq_of_data
  rw [strTake_data, List.take_length]

theorem strIsPrefixOfStr_iff (a b : String) : strIsPrefixOfStr a b = true ↔ a.data <+: b.data := by
  simp [strIsPrefixOfStr]

theorem strIsPrefixOfStr_of_eq_take {a b : String} {L : Nat} (ha : a = strTake b L) :
    strIsPrefixOfStr a b = true := by
  rw [strIsPrefixOfStr_iff, ha, strTake_data]
  exact List.take_prefix L b.data

theorem eq_strTake_of_isPrefixOf {a b : String} {L : Nat} (hlen : a.data.length = L)
    (hpre : strIsPrefixOfStr a b = true) : a = strTake b L := by
  rw [strIsPrefixOfStr_iff] at hpre
  apply strEq_of_data
  rw [strTake_data, ← hlen]
  exact List.prefix_iff_eq_take.mp hpre

/-- Under an index whose keys all have the fixed base length, the radix
longest-prefix match over a query of at least that length coincides with an
exact lookup of the query truncated to that length. -/
theorem longestPrefixOf_eq_lookupAssoc (t : List (String × Bucket)) (q : String) (L : Nat)
    (hlen : ∀ kb ∈ t, (kb.1 : String).data.length = L)
    (hnd : (t.map Prod.fst).Nodup) :
    longestPrefixOf t q = (lookupAssoc t (strTake q L)).map (fun b => (strTake q L, b)) := by
  induction t with
  | nil => rfl
  | cons kv rest ih =>
    have hlen1 : kv.1.data.length = L := hlen kv (List.mem_cons_self kv rest)
    have hlenr : ∀ kb ∈ rest, (kb.1 : String).data.length = L :=
      fun kb hm => hlen kb (List.mem_cons_of_mem kv hm)
    have hndr : (rest.map Prod.fst).Nodup := (List.nodup_cons.mp hnd).2
    have hbest := ih hlenr hndr
    by_cases hk : kv.1 = strTake q L
    · have hpre : strIsPrefixOfStr kv.1 q = true := strIsPrefixOfStr_of_eq_take hk
      have hnr : kv.1 ∉ rest.map Prod.fst := (List.nodup_cons.mp hnd).1
      have hlrest : lookupAssoc rest (strTake q L) = none :=
        lookupAssoc_eq_none_of_not_mem rest _ (hk ▸ hnr)
      rw [longestPrefixOf, hbest, hlrest]
      simp only [Option.map_none']
      rw [if_pos hpre]
      show some kv = _
      rw [lookupAssoc, if_pos hk]
      simp only [Option.map_some']
      rw [← hk]
    · have hpre : strIsPrefixOfStr kv.1 q = false := by
        rcases hb : strIsPrefixOfStr kv.1 q with _ | _
        · rfl
        · exact absurd (eq_strTake_of_isPrefixOf hlen1 hb) hk
      rw [longestPrefixOf, hbest, hpre]
      show (lookupAssoc rest (strTake q L)).map _ = _
      rw [lookupAssoc, if_neg hk]

theorem mem_keys_insertAssoc {α : Type} (l : List (String × α)) (k : String) (v : α)
    (x : String) (h : x ∈ l.map Prod.fst) : x ∈ (insertAssoc l k v).map Prod.fst := by
  simp only [insertAssoc, List.map_cons, keys_eraseKey, List.mem_cons]
  by_cases hx : x = k
  · left; exact hx
  · right
    exact List.mem_filter.mpr ⟨h, by simpa using hx⟩

theorem strTake_hex (id : String) (n : Nat) :
    ∀ c ∈ (strTake (blake2b256Hex id) n).data, isHexDigit c = true := by
  intro c hc
  rw [strTake_data] at hc
  exact blake2b256Hex_isHexDigit id c (List.take_subset n _ hc)

theorem GetCacheKey_hex {key : String} (h : ∀ c ∈ key.data, isHexDigit c = true) :
    GetCacheKey key = key :=
  GetCacheKey_eq_self (fun c hc => isHexDigit_ne_slash (h c hc))

theorem BucketStorageKeyForItemID_eq (s : PackerState) (hWF : CacheWF s) (id : String) :
    BucketStorageKeyForItemID s id = strTake (blake2b256Hex id) (s.baseBucketBits / 4) := by
  obtain ⟨hbase, hL64, hmem, hnd, hsub⟩ := hWF
  have hlp := longestPrefixOf_eq_lookupAssoc s.bucketsCache (blake2b256Hex id)
      (s.baseBucketBits / 4) (fun kb hm => (hmem kb hm).1) hnd
  rw [BucketStorageKeyForItemID, hlp]
  cases hc : lookupAssoc s.bucketsCache (strTake (blake2b256Hex id) (s.baseBucketBits / 4)) with
  | none => simp
  | some b =>
    simp only [Option.map_some']
    exact (hmem _ (lookupAssoc_mem _ _ _ hc)).2.1

theorem longestPrefixOf_at_base (s : PackerState) (hWF : CacheWF s) (k0 : String)
    (hk0 : k0.data.length = s.baseBucketBits / 4) :
    longestPrefixOf s.bucketsCache k0 = (lookupAssoc s.bucketsCache k0).map (fun b => (k0, b)) := by
  obtain ⟨hbase, hL64, hmem, hnd, hsub⟩ := hWF
  have htk : strTake k0 (s.baseBucketBits / 4) = k0 := by
    rw [← hk0]; exact strTake_all k0
  have hlp := longestPrefixOf_eq_lookupAssoc s.bucketsCache k0 (s.baseBucketBits / 4)
      (fun kb hm => (hmem kb hm).1) hnd
  rw [hlp, htk]

theorem not_mem_keys_of_lookupAssoc_eq_none {α : Type} (l : List (String × α)) (k : String)
    (h : lookupAssoc l k = none) : k ∉ l.map Prod.fst := by
  induction l with
  | nil => simp
  | cons kv rest ih =>
    by_cases hk : kv.1 = k
    · rw [lookupAssoc, if_pos hk] at h
      cases h
    · rw [lookupAssoc, if_neg hk] at h
      simp only [List.map_cons, List.mem_cons, not_or]
      exact ⟨fun e => hk e.symm, ih h⟩

theorem lookupAssoc_store_none (s : PackerState) (hWF : CacheWF s) (k0 : String)
    (hc : lookupAssoc s.bucketsCache k0 = none) : lookupAssoc s.backend.store k0 = none := by
  obtain ⟨hbase, hL64, hmem, hnd, hsub⟩ := hWF
  cases hs : lookupAssoc s.backend.store k0 with
  | none => rfl
  | some v =>
    have hm := hsub _ (lookupAssoc_mem _ _ _ hs)
    exact absurd hm (not_mem_keys_of_lookupAssoc_eq_none _ _ hc)

theorem storeBucket_honest (s : PackerState) (b : Bucket) (hb : s.backend.behavior = .honest)
    (hq : s.queueMode = false) :
    storeBucket s b =
      (none, { s with backend := { s.backend with
                 store := insertAssoc s.backend.store b.key (.snappy b) } }) := by
  rw [storeBucket, hq]
  simp only [Bool.false_eq_true, if_false]
  rw [backendPut, hb]

theorem putItemFinish_honest (s : PackerState) (k0 : String) (b0 : Bucket) (item : Item)
    (hid : item.id ≠ "") (hb : s.backend.behavior = .honest) (hq : s.queueMode = false) :
    putItemFinish s k0 b0 item =
      (none,
       { s with
         bucketsCache := insertAssoc s.bucketsCache k0
           { b0 with itemMap := insertAssoc b0.itemMap item.id item.message },
         backend := { s.backend with
           store := insertAssoc s.backend.store b0.key
             (.snappy { b0 with itemMap := insertAssoc b0.itemMap item.id item.message }) } }) := by
  rw [putItemFinish, if_neg hid]
  exact storeBucket_honest _ _ hb hq

theorem PutItem_eq (s : PackerState) (hWF : CacheWF s) (item : Item) (hid : item.id ≠ "") :
    PutItem s item =
      putItemFinish s (strTake (blake2b256Hex item.id) (s.baseBucketBits / 4))
        (match lookupAssoc s.bucketsCache (strTake (blake2b256Hex item.id) (s.baseBucketBits / 4)) with
         | some b => b
         | none =>
             { key := strTake (blake2b256Hex item.id) (s.baseBucketBits / 4),
               itemMap := [], buckets := [] })
        item := by
  have hk0len : (strTake (blake2b256Hex item.id) (s.baseBucketBits / 4)).data.length
      = s.baseBucketBits / 4 :=
    strTake_length _ _ (by rw [blake2b256Hex_length]; exact hWF.2.1)
  have hbk := BucketStorageKeyForItemID_eq s hWF item.id
  have hck := GetCacheKey_hex (strTake_hex item.id (s.baseBucketBits / 4))
  have hlp := longestPrefixOf_at_base s hWF _ hk0len
  rw [PutItem, if_neg hid]
  simp only [hbk, hck, hlp]
  cases hc : lookupAssoc s.bucketsCache (strTake (blake2b256Hex item.id) (s.baseBucketBits / 4)) with
  | some b => simp
  | none =>
    rw [lookupAssoc_store_none s hWF _ hc]
    simp

theorem DeleteItem_eq (s : PackerState) (hWF : CacheWF s) (id : String) (hid : id ≠ "") :
    DeleteItem s id =
      (match lookupAssoc s.bucketsCache (strTake (blake2b256Hex id) (s.baseBucketBits / 4)) with
       | some b =>
           deleteItemFinish s (strTake (blake2b256Hex id) (s.baseBucketBits / 4)) b id
       | none => (none, s)) := by
  have hk0len : (strTake (blake2b256Hex id) (s.baseBucketBits / 4)).data.length
      = s.baseBucketBits / 4 :=
    strTake_length _ _ (by rw [blake2b256Hex_length]; exact hWF.2.1)
  have hbk := BucketStorageKeyForItemID_eq s hWF id
  have hck := GetCacheKey_hex (strTake_hex id (s.baseBucketBits / 4))
  have hlp := longestPrefixOf_at_base s hWF _ hk0len
  rw [DeleteItem, if_neg hid]
  simp only [hbk, hck, hlp]
  cases hc : lookupAssoc s.bucketsCache (strTake (blake2b256Hex id) (s.baseBucketBits / 4)) with
  | some b => simp
  | none =>
    rw [lookupAssoc_store_none s hWF _ hc]
    simp

theorem GetItem_resolved (s : PackerState) (hWF : CacheWF s) (id : String) (hid : id ≠ "") :
    (GetItem s id).1 =
      .ok ((resolvedPayload s id).map (fun m => { id := id, message := m })) := by
  have hk0len : (strTake (blake2b256Hex id) (s.baseBucketBits / 4)).data.length
      = s.baseBucketBits / 4 :=
    strTake_length _ _ (by rw [blake2b256Hex_length]; exact hWF.2.1)
  have hbk := BucketStorageKeyForItemID_eq s hWF id
  have hck := GetCacheKey_hex (strTake_hex id (s.baseBucketBits / 4))
  have hlp := longestPrefixOf_at_base s hWF _ hk0len
  rw [GetItem, if_neg hid]
  simp only [hbk, hck, hlp]
  cases hc : lookupAssoc s.bucketsCache (strTake (blake2b256Hex id) (s.baseBucketBits / 4)) with
  | some b =>
    simp only [Option.map_some']
    by_cases he : b.itemMap.isEmpty
    · have hnil : b.itemMap = [] := List.isEmpty_iff.mp he
      simp [he, resolvedPayload, hc, hnil, lookupAssoc]
    · cases hi : lookupAssoc b.itemMap id with
      | none => simp [he, hi, resolvedPayload, hc]
      | some m => simp [he, hi, resolvedPayload, hc]
  | none =>
    rw [lookupAssoc_store_none s hWF _ hc]
    simp [resolvedPayload, hc]

theorem PutItem_spec_aux (s : PackerState) (hWF : CacheWF s) (item : Item) (hid : item.id ≠ "")
    (hb : s.backend.behavior = .honest) (hq : s.queueMode = false)
    (k0 : String) (hk0 : k0 = strTake (blake2b256Hex item.id) (s.baseBucketBits / 4))
    (b0 : Bucket) (hb0key : b0.key = k0)
    (hb0items : ∀ id', lookupAssoc b0.itemMap id'
        = (match lookupAssoc s.bucketsCache k0 with
           | some b => lookupAssoc b.itemMap id'
           | none => none)) :
    (putItemFinish s k0 b0 item).1 = none ∧
    CacheWF (putItemFinish s k0 b0 item).2 ∧
    Honest (putItemFinish s k0 b0 item).2 ∧
    (putItemFinish s k0 b0 item).2.baseBucketBits = s.baseBucketBits ∧
    (∀ id', resolvedPayload (putItemFinish s k0 b0 item).2 id' =
        if id' = item.id then some item.message else resolvedPayload s id') := by
  obtain ⟨hbase, hL64, hmem, hnd, hsub⟩ := hWF
  have hk0len : k0.data.length = s.baseBucketBits / 4 := by
    rw [hk0]; exact strTake_length _ _ (by rw [blake2b256Hex_length]; exact hL64)
  have hk0hex : ∀ c ∈ k0.data, isHexDigit c = true := by
    rw [hk0]; exact strTake_hex item.id _
  rw [putItemFinish_honest s k0 b0 item hid hb hq]
  refine ⟨rfl, ⟨hbase, hL64, ?_, ?_, ?_⟩, ⟨hb, hq⟩, rfl, ?_⟩
  · intro kb hm
    rcases mem_insertAssoc _ _ _ _ hm with he | hm2
    · rw [he]
      exact ⟨hk0len, hb0key, hk0hex⟩
    · exact hmem kb hm2
  · exact nodup_keys_insertAssoc _ _ _ hnd
  · intro kv hm
    rcases mem_insertAssoc _ _ _ _ hm with he | hm2
    · rw [he]
      show b0.key ∈ _
      rw [hb0key]
      simp [insertAssoc]
    · exact mem_keys_insertAssoc _ _ _ _ (hsub kv hm2)
  · intro id'
    by_cases hq1 : id' = item.id
    · subst hq1
      rw [if_pos rfl]
      simp only [resolvedPayload, ← hk0, lookupAssoc_insert_self]
    · rw [if_neg hq1]
      simp only [resolvedPayload, ← hk0]
      by_cases hslot : strTake (blake2b256Hex id') (s.baseBucketBits / 4) = k0
      · rw [hslot, lookupAssoc_insert_self]
        show lookupAssoc (insertAssoc b0.itemMap item.id item.message) id' = _
        rw [lookupAssoc_insert_ne _ _ _ _ hq1, hb0items id']
        cases lookupAssoc s.bucketsCache k0 <;> rfl
      · rw [lookupAssoc_insert_ne _ _ _ _ hslot]

theorem isEmpty_false_of_lookupAssoc {α : Type} (l : List (String × α)) (k : String) (v : α)
    (h : lookupAssoc l k = some v) : l.isEmpty = false := by
  cases l with
  | nil => cases h
  | cons kv rest => rfl

theorem deleteItemFinish_honest (s : PackerState) (k0 : String) (b0 : Bucket) (id : String)
    (hb : s.backend.behavior = .honest) (hq : s.queueMode = false) (m : Payload)
    (hit : lookupAssoc b0.itemMap id = some m) :
    deleteItemFinish s k0 b0 id =
      (none,
       { s with
         bucketsCache := insertAssoc s.bucketsCache k0
           { b0 with itemMap := eraseKey b0.itemMap id },
         backend := { s.backend with
           store := insertAssoc s.backend.store b0.key
             (.snappy { b0 with itemMap := eraseKey b0.itemMap id }) } }) := by
  have hne := isEmpty_false_of_lookupAssoc b0.itemMap id m hit
  rw [deleteItemFinish]
  rw [hne]
  simp only [Bool.false_eq_true, if_false, hit]
  exact storeBucket_honest _ _ hb hq

theorem PutItem_honest_spec (s : PackerState) (hWF : CacheWF s) (hH : Honest s)
    (item : Item) (hid : item.id ≠ "") :
    (PutItem s item).1 = none ∧
    CacheWF (PutItem s item).2 ∧ Honest (PutItem s item).2 ∧
    (PutItem s item).2.baseBucketBits = s.baseBucketBits ∧
    (∀ id', resolvedPayload (PutItem s item).2 id' =
        if id' = item.id then some item.message else resolvedPayload s id') := by
  obtain ⟨hb, hq⟩ := hH
  rw [PutItem_eq s hWF item hid]
  cases hc : lookupAssoc s.bucketsCache
      (strTake (blake2b256Hex item.id) (s.baseBucketBits / 4)) with
  | some b =>
    exact PutItem_spec_aux s hWF item hid hb hq _ rfl b
      ((hWF.2.2.1 _ (lookupAssoc_mem _ _ _ hc)).2.1)
      (fun id' => by rw [hc])
  | none =>
    exact PutItem_spec_aux s hWF item hid hb hq _ rfl _ rfl
      (fun id' => by rw [hc]; rfl)

theorem deleteItemFinish_spec (s : PackerState) (hWF : CacheWF s) (id : String)
    (hb : s.backend.behavior = .honest) (hq : s.queueMode = false)
    (k0 : String) (hk0 : k0 = strTake (blake2b256Hex id) (s.baseBucketBits / 4))
    (b0 : Bucket) (hb0key : b0.key = k0)
    (hcache : lookupAssoc s.bucketsCache k0 = some b0) :
    (deleteItemFinish s k0 b0 id).1 = none ∧
    CacheWF (deleteItemFinish s k0 b0 id).2 ∧
    Honest (deleteItemFinish s k0 b0 id).2 ∧
    (deleteItemFinish s k0 b0 id).2.baseBucketBits = s.baseBucketBits ∧
    (∀ id', resolvedPayload (deleteItemFinish s k0 b0 id).2 id' =
        if id' = id then none else resolvedPayload s id') := by
  obtain ⟨hbase, hL64, hmem, hnd, hsub⟩ := hWF
  have hk0len : k0.data.length = s.baseBucketBits / 4 := by
    rw [hk0]; exact strTake_length _ _ (by rw [blake2b256Hex_length]; exact hL64)
  have hk0hex : ∀ c ∈ k0.data, isHexDigit c = true := by
    rw [hk0]; exact strTake_hex id _
  have hWFs : CacheWF s := ⟨hbase, hL64, hmem, hnd, hsub⟩
  by_cases he : b0.itemMap.isEmpty
  · have hfin : deleteItemFinish s k0 b0 id = (none, s) := by
      rw [deleteItemFinish, he]
      simp
    rw [hfin]
    refine ⟨rfl, hWFs, ⟨hb, hq⟩, rfl, ?_⟩
    intro id'
    by_cases hq1 : id' = id
    · subst hq1
      rw [if_pos rfl]
      have hnil : b0.itemMap = [] := List.isEmpty_iff.mp he
      simp only [resolvedPayload, ← hk0, hcache, hnil, lookupAssoc]
    · rw [if_neg hq1]
  · cases hit : lookupAssoc b0.itemMap id with
    | none =>
      have hfin : deleteItemFinish s k0 b0 id = (none, s) := by
        rw [deleteItemFinish]
        rw [show b0.itemMap.isEmpty = false from Bool.not_eq_true _ ▸ eq_false_of_ne_true he]
        simp only [Bool.false_eq_true, if_false, hit]
      rw [hfin]
      refine ⟨rfl, hWFs, ⟨hb, hq⟩, rfl, ?_⟩
      intro id'
      by_cases hq1 : id' = id
      · subst hq1
        rw [if_pos rfl]
        simp only [resolvedPayload, ← hk0, hcache, hit]
      · rw [if_neg hq1]
    | some m =>
      rw [deleteItemFinish_honest s k0 b0 id hb hq m hit]
      refine ⟨rfl, ⟨hbase, hL64, ?_, ?_, ?_⟩, ⟨hb, hq⟩, rfl, ?_⟩
      · intro kb hm
        rcases mem_insertAssoc _ _ _ _ hm with heq | hm2
        · rw [heq]
          exact ⟨hk0len, hb0key, hk0hex⟩
        · exact hmem kb hm2
      · exact nodup_keys_insertAssoc _ _ _ hnd
      · intro kv hm
        rcases mem_insertAssoc _ _ _ _ hm with heq | hm2
        · rw [heq]
          show b0.key ∈ _
          rw [hb0key]
          simp [insertAssoc]
        · exact mem_keys_insertAssoc _ _ _ _ (hsub kv hm2)
      · intro id'
        by_cases hq1 : id' = id
        · subst hq1
          rw [if_pos rfl]
          simp only [resolvedPayload, ← hk0, lookupAssoc_insert_self]
          exact lookupAssoc_eraseKey_self _ _
        · rw [if_neg hq1]
          simp only [resolvedPayload, ← hk0]
          by_cases hslot : strTake (blake2b256Hex id') (s.baseBucketBits / 4) = k0
          · rw [hslot, lookupAssoc_insert_self, hcache]
            show lookupAssoc (eraseKey b0.itemMap id) id' = _
            rw [lookupAssoc_eraseKey_ne _ _ _ hq1]
          · rw [lookupAssoc_insert_ne _ _ _ _ hslot]

theorem DeleteItem_honest_spec (s : PackerState) (hWF : CacheWF s) (hH : Honest s)
    (id : String) (hid : id ≠ "") :
    (DeleteItem s id).1 = none ∧
    CacheWF (DeleteItem s id).2 ∧ Honest (DeleteItem s id).2 ∧
    (DeleteItem s id).2.baseBucketBits = s.baseBucketBits ∧
    (∀ id', resolvedPayload (DeleteItem s id).2 id' =
        if id' = id then none else resolvedPayload s id') := by
  obtain ⟨hb, hq⟩ := hH
  rw [DeleteItem_eq s hWF id hid]
  cases hc : lookupAssoc s.bucketsCache
      (strTake (blake2b256Hex id) (s.baseBucketBits / 4)) with
  | some b =>
    exact deleteItemFinish_spec s hWF id hb hq _ rfl b
      ((hWF.2.2.1 _ (lookupAssoc_mem _ _ _ hc)).2.1) hc
  | none =>
    refine ⟨rfl, hWF, ⟨hb, hq⟩, rfl, ?_⟩
    intro id'
    by_cases hq1 : id' = id
    · subst hq1
      rw [if_pos rfl]
      simp only [resolvedPayload, hc]
    · rw [if_neg hq1]

theorem DeleteItem_noop (s : PackerState) (hWF : CacheWF s) (id : String) (hid : id ≠ "")
    (hres : resolvedPayload s id = none) : DeleteItem s id = (none, s) := by
  rw [DeleteItem_eq s hWF id hid]
  cases hc : lookupAssoc s.bucketsCache
      (strTake (blake2b256Hex id) (s.baseBucketBits / 4)) with
  | none => rfl
  | some b =>
    rw [resolvedPayload, hc] at hres
    show deleteItemFinish s (strTake (blake2b256Hex id) (s.baseBucketBits / 4)) b id = (none, s)
    by_cases he : b.itemMap.isEmpty
    · rw [deleteItemFinish, he]
      simp
    · rw [deleteItemFinish, show b.itemMap.isEmpty = false from eq_false_of_ne_true he]
      simp only [Bool.false_eq_true, if_false]
      rw [show lookupAssoc b.itemMap id = none from hres]

theorem runOps_spec (ops : List PackerOp) : ∀ s : PackerState, CacheWF s → Honest s →
    (∀ op ∈ ops, opId op ≠ "") →
    CacheWF (runOps s ops) ∧ Honest (runOps s ops) ∧
    (∀ id, resolvedPayload (runOps s ops) id =
      match lastOp ops id with
      | some r => r
      | none => resolvedPayload s id) := by
  induction ops with
  | nil =>
    intro s hWF hH hids
    exact ⟨hWF, hH, fun id => rfl⟩
  | cons op rest ih =>
    intro s hWF hH hids
    have hop : opId op ≠ "" := hids op (List.mem_cons_self _ _)
    have hrest : ∀ op' ∈ rest, opId op' ≠ "" :=
      fun op' hm => hids op' (List.mem_cons_of_mem _ hm)
    have hrun : runOps s (op :: rest) = runOps (applyOp s op) rest := rfl
    cases op with
    | put pid msg =>
      obtain ⟨h1, hWF1, hH1, hbase1, hres1⟩ :=
        PutItem_honest_spec s hWF hH { id := pid, message := msg } hop
      obtain ⟨hWF2, hH2, hres2⟩ := ih (applyOp s (.put pid msg)) hWF1 hH1 hrest
      rw [hrun]
      refine ⟨hWF2, hH2, ?_⟩
      intro id
      rw [hres2 id, lastOp]
      cases hl : lastOp rest id with
      | some r => rfl
      | none =>
        show resolvedPayload (PutItem s { id := pid, message := msg }).2 id = _
        rw [hres1 id]
        by_cases hpq : pid = id
        · rw [if_pos hpq.symm, if_pos hpq]
        · rw [if_neg (fun e => hpq e.symm), if_neg hpq]
    | del did =>
      obtain ⟨h1, hWF1, hH1, hbase1, hres1⟩ := DeleteItem_honest_spec s hWF hH did hop
      obtain ⟨hWF2, hH2, hres2⟩ := ih (applyOp s (.del did)) hWF1 hH1 hrest
      rw [hrun]
      refine ⟨hWF2, hH2, ?_⟩
      intro id
      rw [hres2 id, lastOp]
      cases hl : lastOp rest id with
      | some r => rfl
      | none =>
        show resolvedPayload (DeleteItem s did).2 id = _
        rw [hres1 id]
        by_cases hpq : did = id
        · rw [if_pos hpq.symm, if_pos hpq]
        · rw [if_neg (fun e => hpq e.symm), if_neg hpq]

theorem eraseKey_insertAssoc_self {α : Type} (l : List (String × α)) (k : String) (v : α) :
    eraseKey (insertAssoc l k v) k = eraseKey l k := by
  simp [insertAssoc, eraseKey, List.filter_filter]

theorem storeBucket_frame (s : PackerState) (b : Bucket) :
    (storeBucket s b).2.queueMode = s.queueMode ∧
    (storeBucket s b).2.backend.behavior = s.backend.behavior ∧
    (storeBucket s b).2.baseBucketBits = s.baseBucketBits := by
  rw [storeBucket]
  by_cases hq : s.queueMode = true
  · rw [if_pos hq]
    exact ⟨rfl, rfl, rfl⟩
  · rw [if_neg hq, backendPut]
    cases hb : s.backend.behavior <;> simp [hb]

theorem flushLoop_queued (entries : List (String × Bucket)) :
    ∀ (s : PackerState) (errs : List PackerErr),
    (∀ kb ∈ entries, (kb.2 : Bucket).key = kb.1) →
    (flushLoop s entries errs).2.queuedBuckets =
      List.foldl (fun q kb => eraseKey q kb.1) s.queuedBuckets entries := by
  induction entries with
  | nil => intro s errs _; rfl
  | cons kb rest ih =>
    intro s errs h
    obtain ⟨k, b⟩ := kb
    have hbk : b.key = k := h (k, b) (List.mem_cons_self _ _)
    simp only [flushLoop]
    rw [ih _ _ (fun kb hm => h kb (List.mem_cons_of_mem _ hm))]
    rw [List.foldl_cons]
    congr 1
    show eraseKey (storeBucket s b).2.queuedBuckets k = eraseKey s.queuedBuckets k
    rw [storeBucket]
    by_cases hq : s.queueMode = true
    · rw [if_pos hq]
      show eraseKey (insertAssoc s.queuedBuckets b.key b) k = _
      rw [hbk, eraseKey_insertAssoc_self]
    · rw [if_neg hq, backendPut]
      cases s.backend.behavior <;> rfl

theorem foldl_eraseKey_nil {α : Type} (entries : List (String × α)) :
    ∀ q : List (String × α), (∀ x ∈ q, x.1 ∈ entries.map Prod.fst) →
    List.foldl (fun q kb => eraseKey q kb.1) q entries = [] := by
  induction entries with
  | nil =>
    intro q h
    cases q with
    | nil => rfl
    | cons x rest => exact absurd (h x (List.mem_cons_self _ _)) (by simp)
  | cons kb rest ih =>
    intro q h
    rw [List.foldl_cons]
    apply ih
    intro x hx
    have hxq := List.mem_of_mem_filter hx
    have hxne : x.1 ≠ kb.1 := by
      have := List.of_mem_filter hx
      simpa using this
    have hmem := h x hxq
    simp only [List.map_cons, List.mem_cons] at hmem
    rcases hmem with h1 | h1
    · exact absurd h1 hxne
    · exact h1

theorem FlushQueue_queued_empty (s : PackerState)
    (hkeys : ∀ kb ∈ s.queuedBuckets, (kb.2 : Bucket).key = kb.1) :
    (FlushQueue s).2.queuedBuckets = [] := by
  show (flushLoop s s.queuedBuckets []).2.queuedBuckets = []
  rw [flushLoop_queued s.queuedBuckets s [] hkeys]
  exact foldl_eraseKey_nil s.queuedBuckets s.queuedBuckets
    (fun x hx => List.mem_map_of_mem _ hx)

theorem FlushQueue_of_empty (s : PackerState) (h : s.queuedBuckets = []) :
    FlushQueue s = (none, s) := by
  rw [FlushQueue, h]
  rfl

theorem flushLoop_errs_len (entries : List (String × Bucket)) :
    ∀ (s : PackerState) (errs : List PackerErr),
    errs.length ≤ (flushLoop s entries errs).1.length := by
  induction entries with
  | nil => intro s errs; exact Nat.le_refl _
  | cons kb rest ih =>
    intro s errs
    obtain ⟨k, b⟩ := kb
    simp only [flushLoop]
    refine Nat.le_trans ?_ (ih _ _)
    cases (storeBucket s b).1 <;> simp

theorem FlushQueue_err_of_fail (s : PackerState) (hq : s.queueMode = false)
    (hb : s.backend.behavior = .failIoErr) (hne : s.queuedBuckets ≠ []) :
    ((FlushQueue s).1).isSome = true := by
  cases hqs : s.queuedBuckets with
  | nil => exact absurd hqs hne
  | cons kb rest =>
    obtain ⟨k, b⟩ := kb
    have hsb : storeBucket s b = (some (.wrapped .ioError), s) := by
      rw [storeBucket, hq]
      simp only [Bool.false_eq_true, if_false]
      rw [backendPut, hb]
    rw [FlushQueue, hqs]
    simp only [flushLoop, hsb]
    have hlen := flushLoop_errs_len rest
      { s with queuedBuckets := eraseKey s.queuedBuckets k }
      ([] ++ [PackerErr.wrapped .ioError])
    generalize hrun : flushLoop { s with queuedBuckets := eraseKey s.queuedBuckets k } rest
        ([] ++ [PackerErr.wrapped .ioError]) = run at hlen ⊢
    simp only [List.length_append, List.length_nil, List.length_cons] at hlen
    cases hr1 : run.1 with
    | nil => rw [hr1] at hlen; simp at hlen
    | cons e es => simp [hr1]

theorem flushLoop_store_spec (entries : List (String × Bucket)) :
    ∀ (s : PackerState) (errs : List PackerErr),
    s.queueMode = false → s.backend.behavior = .honest →
    (∀ kb ∈ entries, (kb.2 : Bucket).key = kb.1) →
    (∀ k0, k0 ∉ entries.map Prod.fst →
        lookupAssoc (flushLoop s entries errs).2.backend.store k0
          = lookupAssoc s.backend.store k0) ∧
    ((entries.map Prod.fst).Nodup →
      ∀ kb ∈ entries,
        lookupAssoc (flushLoop s entries errs).2.backend.store kb.1
          = some (.snappy kb.2)) := by
  induction entries with
  | nil =>
    intro s errs hq hb hkeys
    exact ⟨fun k0 _ => rfl, fun _ kb hm => absurd hm (by simp)⟩
  | cons kb rest ih =>
    intro s errs hq hb hkeys
    obtain ⟨k, b⟩ := kb
    have hbk : b.key = k := hkeys (k, b) (List.mem_cons_self _ _)
    have hkr : ∀ kb ∈ rest, (kb.2 : Bucket).key = kb.1 :=
      fun kb hm => hkeys kb (List.mem_cons_of_mem _ hm)
    have hsb := storeBucket_honest s b hb hq
    simp only [flushLoop, hsb]
    obtain ⟨ihA, ihB⟩ := ih
      { baseBucketBits := s.baseBucketBits, bucketShardBits := s.bucketShardBits,
        bucketsCache := s.bucketsCache, queueMode := s.queueMode,
        queuedBuckets := eraseKey s.queuedBuckets k,
        backend := { store := insertAssoc s.backend.store b.key (.snappy b),
                     behavior := s.backend.behavior } }
      errs hq hb hkr
    constructor
    · intro k0 hk0
      simp only [List.map_cons, List.mem_cons, not_or] at hk0
      rw [show lookupAssoc (flushLoop _ rest errs).2.backend.store k0
            = lookupAssoc (insertAssoc s.backend.store b.key (.snappy b)) k0 from ihA k0 hk0.2]
      rw [hbk]
      exact lookupAssoc_insert_ne _ _ _ _ hk0.1
    · intro hnd kb hm
      have hnd0 : (k :: rest.map Prod.fst).Nodup := by simpa using hnd
      have hnd1 : k ∉ rest.map Prod.fst := (List.nodup_cons.mp hnd0).1
      have hnd2 : (rest.map Prod.fst).Nodup := (List.nodup_cons.mp hnd0).2
      rcases List.mem_cons.mp hm with he | hm2
      · rw [he]
        rw [show lookupAssoc (flushLoop _ rest errs).2.backend.store (k, b).1
              = lookupAssoc (insertAssoc s.backend.store b.key (.snappy b)) (k, b).1 from
            ihA (k, b).1 hnd1]
        show lookupAssoc (insertAssoc s.backend.store b.key (.snappy b)) k = _
        rw [hbk]
        rw [lookupAssoc_insert_self]
      · exact ihB hnd2 kb hm2

theorem storeBucket_ioErr (s : PackerState) (b : Bucket)
    (hb : s.backend.behavior = .failIoErr) (hq : s.queueMode = false) :
    storeBucket s b = (some (.wrapped .ioError), s) := by
  rw [storeBucket, hq]
  simp only [Bool.false_eq_true, if_false]
  rw [backendPut, hb]

theorem putItemFinish_ioErr (s : PackerState) (k0 : String) (b0 : Bucket) (item : Item)
    (hid : item.id ≠ "") (hb : s.backend.behavior = .failIoErr) (hq : s.queueMode = false) :
    putItemFinish s k0 b0 item =
      (some (.wrapped .ioError),
       { s with
         bucketsCache := insertAssoc s.bucketsCache k0
           { b0 with itemMap := insertAssoc b0.itemMap item.id item.message } }) := by
  rw [putItemFinish, if_neg hid]
  exact storeBucket_ioErr _ _ hb hq

/-- C1: shardBucket is claimed to create two to the power shard-bits children
keyed by the parent key extended with a hex label and to route every parent
item into the child addressed by the next digest characters.  The code
computes the loop bound with the caret operator, which is xor in Go (2 xor 4
is 6, not 16), gives every child an empty key instead of parent key plus
label, routes no item, and reports no error: the embedded routine run on a
one-item bucket with the default shard bits yields six empty children with
empty keys and leaves the item in the parent. -/
theorem C1_shardBucket_code_bug :
    (shardBucket (packerEmpty .honest) bucket00).2.1.buckets.length = 6 ∧
    (∀ kb ∈ (shardBucket (packerEmpty .honest) bucket00).2.1.buckets,
        (kb.2 : Bucket).itemMap = [] ∧ (kb.2 : Bucket).key = "") ∧
    (shardBucket (packerEmpty .honest) bucket00).2.1.itemMap = [("alice", "one")] ∧
    (shardBucket (packerEmpty .honest) bucket00).1 = none ∧
    2 ^^^ 4 = 6 ∧ 2 ^ 4 = 16 := by
  refine ⟨by decide, by decide, by decide, rfl, by decide, by decide⟩

/-- C2: the claim says every write path catches the value-too-large error and
splits.  In the code only PutBucket does; PutItem and DeleteItem return the
wrapped backend error to the caller without splitting, as the first two
conjuncts show on a backend that rejects the put as too large, while the
third conjunct shows PutBucket swallowing the same error. -/
theorem C2_entryTooLarge_not_caught_code_bug :
    ((PutItem (packerEmpty .failTooLarge) { id := "alice", message := "one" }).1.map
        PackerErr.containsValueTooLarge = some true) ∧
    ((DeleteItem (packerWithAlice .failTooLarge) ("alice")).1.map
        PackerErr.containsValueTooLarge = some true) ∧
    ((PutBucket (packerEmpty .failTooLarge) bucket00).1 = none) := by
  refine ⟨by decide, by decide, by decide⟩

/-- C3 counterexample: on a backend whose put fails with a transient storage
error, PutItem returns the error yet the bucket index has been mutated: the
cache grows from zero to one bucket and the failed payload is resolvable from
the index afterwards, refuting the claim that a failed write leaves the index
unchanged. -/
theorem C3_counterexample :
    ((PutItem (packerEmpty .failIoErr) { id := "alice", message := "one" }).1
        = some (.wrapped .ioError)) ∧
    (packerEmpty .failIoErr).bucketsCache.length = 0 ∧
    (PutItem (packerEmpty .failIoErr) { id := "alice", message := "one" }).2.bucketsCache.length
        = 1 ∧
    resolvedPayload (PutItem (packerEmpty .failIoErr) { id := "alice", message := "one" }).2
        ("alice") = some ("one") := by
  refine ⟨by decide, rfl, by decide, by decide⟩

/-- C3 amended: when the backend put fails during PutItem, the error is
surfaced and the backend store is unchanged, but the in-memory index has
already been mutated: the routed bucket, with the new item upserted, sits in
the cache, so a retry observes the item already present rather than the
pre-call index state. -/
theorem C3_amended_index_mutated_on_failure (s : PackerState) (hWF : CacheWF s)
    (hq : s.queueMode = false) (hb : s.backend.behavior = .failIoErr)
    (item : Item) (hid : item.id ≠ "") :
    (PutItem s item).1 = some (.wrapped .ioError) ∧
    (PutItem s item).2.backend.store = s.backend.store ∧
    resolvedPayload (PutItem s item).2 item.id = some item.message := by
  rw [PutItem_eq s hWF item hid]
  cases hc : lookupAssoc s.bucketsCache
      (strTake (blake2b256Hex item.id) (s.baseBucketBits / 4)) with
  | some b =>
    rw [putItemFinish_ioErr s _ b item hid hb hq]
    exact ⟨rfl, rfl, by simp only [resolvedPayload, lookupAssoc_insert_self]⟩
  | none =>
    rw [putItemFinish_ioErr s _ _ item hid hb hq]
    exact ⟨rfl, rfl, by simp only [resolvedPayload, lookupAssoc_insert_self]⟩

theorem C3_amended_witness :
    CacheWF (packerEmpty .failIoErr) ∧
    (PutItem (packerEmpty .failIoErr) { id := "alice", message := "one" }).1
      = some (.wrapped .ioError) ∧
    resolvedPayload (PutItem (packerEmpty .failIoErr) { id := "alice", message := "one" }).2
      ("alice") = some ("one") :=
  ⟨by unfold CacheWF; decide,
   (C3_amended_index_mutated_on_failure (packerEmpty .failIoErr) (by unfold CacheWF; decide) rfl rfl
      { id := "alice", message := "one" } (by decide)).1,
   (C3_amended_index_mutated_on_failure (packerEmpty .failIoErr) (by unfold CacheWF; decide) rfl rfl
      { id := "alice", message := "one" } (by decide)).2.2⟩

/-- C4: the routing function hashes the id to a 64-character lowercase hex
digest, returns the cached bucket key on a longest-prefix hit, otherwise the
first base-bits-over-four characters of the digest; it performs no storage
access, and on an index with no match the result depends only on the id and
the base bits. -/
theorem C4_bucketStorageKeyForItemID (s : PackerState) (itemID : String) :
    ((blake2b256Hex itemID).data.length = 64 ∧
      ∀ c ∈ (blake2b256Hex itemID).data, isHexDigit c = true) ∧
    (∀ k b, longestPrefixOf s.bucketsCache (blake2b256Hex itemID) = some (k, b) →
        BucketStorageKeyForItemID s itemID = b.key) ∧
    (longestPrefixOf s.bucketsCache (blake2b256Hex itemID) = none →
        BucketStorageKeyForItemID s itemID
          = strTake (blake2b256Hex itemID) (s.baseBucketBits / 4)) ∧
    (∀ t : PackerState, longestPrefixOf s.bucketsCache (blake2b256Hex itemID) = none →
        longestPrefixOf t.bucketsCache (blake2b256Hex itemID) = none →
        t.baseBucketBits = s.baseBucketBits →
        BucketStorageKeyForItemID t itemID = BucketStorageKeyForItemID s itemID) := by
  refine ⟨⟨blake2b256Hex_length itemID, blake2b256Hex_isHexDigit itemID⟩, ?_, ?_, ?_⟩
  · intro k b h
    rw [BucketStorageKeyForItemID, h]
  · intro h
    rw [BucketStorageKeyForItemID, h]
  · intro t h1 h2 hbase
    rw [BucketStorageKeyForItemID, BucketStorageKeyForItemID, h1, h2, hbase]

theorem C4_witness :
    longestPrefixOf (packerEmpty .honest).bucketsCache (blake2b256Hex ("alice")) = none ∧
    BucketStorageKeyForItemID (packerEmpty .honest) ("alice")
      = strTake (blake2b256Hex ("alice")) ((packerEmpty .honest).baseBucketBits / 4) :=
  ⟨rfl, (C4_bucketStorageKeyForItemID (packerEmpty .honest) ("alice")).2.2.1 rfl⟩

/-- C5: over any sequential history of PutItem and DeleteItem calls with
nonempty ids starting from a well-formed state on an accepting backend, an id
whose last addressing operation is a put of payload p is returned by GetItem
with exactly payload p. -/
theorem C5_roundtrip (s0 : PackerState) (hWF : CacheWF s0) (hH : Honest s0)
    (ops : List PackerOp) (hids : ∀ op ∈ ops, opId op ≠ "")
    (id : String) (hid : id ≠ "") (p : Payload)
    (hlast : lastOp ops id = some (some p)) :
    (GetItem (runOps s0 ops) id).1 = .ok (some { id := id, message := p }) := by
  obtain ⟨hWF1, hH1, hres⟩ := runOps_spec ops s0 hWF hH hids
  rw [GetItem_resolved (runOps s0 ops) hWF1 id hid]
  rw [hres id, hlast]
  rfl

theorem C5_witness :
    CacheWF (packerEmpty .honest) ∧
    lastOp [PackerOp.put ("alice") ("one"), PackerOp.del ("bob")] ("alice")
      = some (some ("one")) ∧
    (GetItem (runOps (packerEmpty .honest)
        [PackerOp.put ("alice") ("one"), PackerOp.del ("bob")]) ("alice")).1
      = .ok (some { id := "alice", message := "one" }) :=
  ⟨by unfold CacheWF; decide, by decide,
   C5_roundtrip (packerEmpty .honest) (by unfold CacheWF; decide) ⟨rfl, rfl⟩
     [PackerOp.put ("alice") ("one"), PackerOp.del ("bob")] (by decide)
     ("alice") (by decide) ("one") (by decide)⟩

/-- C6: open is claimed to persist the validated parameters under the key
config when no stored config exists.  The code validates (the third and
fourth conjuncts show invalid parameters rejected) but never persists: the
needPersist flag is declared false and never set, so opening over an empty
config store succeeds and returns the config store still empty. -/
theorem C6_config_not_persisted_code_bug :
    ((NewStoragePackerV2 .honest [] [] 8 4).isOk = true) ∧
    ((NewStoragePackerV2 .honest [] [] 8 4).toOption.map Prod.snd = some []) ∧
    ((NewStoragePackerV2 .honest [] [] 7 4).isOk = false) ∧
    ((NewStoragePackerV2 .honest [] [] 8 2).isOk = false) := by
  refine ⟨rfl, rfl, rfl, rfl⟩

/-- C7 counterexample: calling FlushQueue while queue mode is still enabled
persists nothing: storeBucket re-enqueues each bucket under its key and the
loop then deletes that key, so the queue is drained, the backend still holds
no entry, and no error is reported, refuting the claim that after FlushQueue
every queued bucket has been persisted. -/
theorem C7_counterexample :
    packerQueuedOne.queueMode = true ∧
    packerQueuedOne.queuedBuckets.length = 1 ∧
    (FlushQueue packerQueuedOne).1 = none ∧
    (FlushQueue packerQueuedOne).2.queuedBuckets.length = 0 ∧
    (FlushQueue packerQueuedOne).2.backend.store.length = 0 := by
  refine ⟨rfl, rfl, rfl, rfl, rfl⟩

/-- C7 amended: with queue mode enabled, storeBucket records the bucket in
the pending map and reports success without touching the backend; and when
FlushQueue runs after queue mode has been disabled, over an accepting
backend, the queue is drained and every queued bucket has been persisted
under its key. -/
theorem C7_amended_queue_then_flush (s : PackerState) (b : Bucket) (hq : s.queueMode = true)
    (t : PackerState) (ht : t.queueMode = false) (hb : t.backend.behavior = .honest)
    (hnd : (t.queuedBuckets.map Prod.fst).Nodup)
    (hkeys : ∀ kb ∈ t.queuedBuckets, (kb.2 : Bucket).key = kb.1) :
    ((storeBucket s b).1 = none ∧
      (storeBucket s b).2.backend = s.backend ∧
      lookupAssoc (storeBucket s b).2.queuedBuckets b.key = some b) ∧
    ((FlushQueue t).2.queuedBuckets = [] ∧
      ∀ kb ∈ t.queuedBuckets,
        lookupAssoc (FlushQueue t).2.backend.store kb.1 = some (.snappy kb.2)) := by
  constructor
  · rw [storeBucket, if_pos hq]
    exact ⟨rfl, rfl, lookupAssoc_insert_self _ _ _⟩
  · refine ⟨FlushQueue_queued_empty t hkeys, ?_⟩
    intro kb hm
    exact (flushLoop_store_spec t.queuedBuckets t [] ht hb hkeys).2 hnd kb hm

theorem C7_amended_witness :
    ((storeBucket packerQueuedOne bucket00).1 = none ∧
      (storeBucket packerQueuedOne bucket00).2.backend = packerQueuedOne.backend ∧
      lookupAssoc (storeBucket packerQueuedOne bucket00).2.queuedBuckets bucket00.key
        = some bucket00) ∧
    ((FlushQueue packerFlushReady).2.queuedBuckets = [] ∧
      ∀ kb ∈ packerFlushReady.queuedBuckets,
        lookupAssoc (FlushQueue packerFlushReady).2.backend.store kb.1
          = some (.snappy kb.2)) :=
  C7_amended_queue_then_flush packerQueuedOne bucket00 rfl packerFlushReady rfl rfl
    (by decide) (by decide)

/-- C8: under a well-formed state on an accepting backend, deleting an id that
is not resolvable performs no backend write and leaves the whole state
unchanged while reporting success, and deleting the same id twice is legal:
the first call succeeds and the second call is a strict no-op. -/
theorem C8_deleteItem_idempotent (s : PackerState) (hWF : CacheWF s) (hH : Honest s)
    (id : String) (hid : id ≠ "") :
    (resolvedPayload s id = none → DeleteItem s id = (none, s)) ∧
    ((DeleteItem s id).1 = none ∧
      DeleteItem (DeleteItem s id).2 id = (none, (DeleteItem s id).2)) := by
  obtain ⟨h1, hWF1, hH1, hbase1, hres1⟩ := DeleteItem_honest_spec s hWF hH id hid
  refine ⟨fun hres => DeleteItem_noop s hWF id hid hres, h1, ?_⟩
  apply DeleteItem_noop _ hWF1 id hid
  rw [hres1 id, if_pos rfl]

theorem C8_witness :
    CacheWF (packerEmpty .honest) ∧
    resolvedPayload (packerEmpty .honest) ("alice") = none ∧
    DeleteItem (packerEmpty .honest) ("alice") = (none, packerEmpty .honest) :=
  ⟨by unfold CacheWF; decide, by decide,
   (C8_deleteItem_idempotent (packerEmpty .honest) (by unfold CacheWF; decide) ⟨rfl, rfl⟩
      ("alice") (by decide)).1 (by decide)⟩

/-- C9: whatever key is recorded inside the serialized bytes, a successfully
decoded bucket carries the key of the storage entry it was read from:
DecodeBucket overrides the unmarshalled key with the entry key. -/
theorem C9_decodeBucket_key_override (entry : StorageEntry) (b : Bucket)
    (h : DecodeBucket entry = .ok b) : b.key = entry.key := by
  cases hv : entry.value with
  | snappy b0 =>
    rw [DecodeBucket, hv] at h
    cases h
    rfl
  | plain b0 =>
    rw [DecodeBucket, hv] at h
    cases h
    rfl
  | garbage =>
    rw [DecodeBucket, hv] at h
    cases h

theorem C9_witness :
    DecodeBucket { key := "00", value := .snappy { key := "zz", itemMap := [("a", "b")], buckets := [] } }
      = .ok { key := "00", itemMap := [("a", "b")], buckets := [] } ∧
    ({ key := "00", itemMap := [("a", "b")], buckets := [] } : Bucket).key
      = ({ key := "00", value := .snappy { key := "zz", itemMap := [("a", "b")], buckets := [] } } : StorageEntry).key :=
  ⟨rfl,
   C9_decodeBucket_key_override
     { key := "00", value := .snappy { key := "zz", itemMap := [("a", "b")], buckets := [] } }
     { key := "00", itemMap := [("a", "b")], buckets := [] } rfl⟩

/-- C10: FlushQueue deletes every queued entry whether or not its store
succeeded, so the queue is empty afterwards and an immediately following
FlushQueue finds nothing to do and returns success with the state unchanged;
and when the backend rejects every put, the first flush still reports the
aggregated failure while draining the queue. -/
theorem C10_flushQueue_drains (s : PackerState)
    (hkeys : ∀ kb ∈ s.queuedBuckets, (kb.2 : Bucket).key = kb.1) :
    (FlushQueue s).2.queuedBuckets = [] ∧
    FlushQueue (FlushQueue s).2 = (none, (FlushQueue s).2) ∧
    (s.queueMode = false → s.backend.behavior = .failIoErr → s.queuedBuckets ≠ [] →
      ((FlushQueue s).1).isSome = true) := by
  have hempty := FlushQueue_queued_empty s hkeys
  exact ⟨hempty, FlushQueue_of_empty _ hempty,
    fun hq hb hne => FlushQueue_err_of_fail s hq hb hne⟩

theorem C10_witness :
    (∀ kb ∈ packerFailQueue.queuedBuckets, (kb.2 : Bucket).key = kb.1) ∧
    (FlushQueue packerFailQueue).2.queuedBuckets = [] ∧
    ((FlushQueue packerFailQueue).1).isSome = true :=
  ⟨by decide,
   (C10_flushQueue_drains packerFailQueue (by decide)).1,
   (C10_flushQueue_drains packerFailQueue (by decide)).2.2 rfl rfl (List.cons_ne_nil _ _)⟩
